import Mathlib

/-!
A verification development for the document-encapsulation engine declared in
dcmdata/include/dcmtk/dcmdata/dcencdoc.h (class DcmEncapsulatedDocument).

The repository ships only the class declaration; the behaviour of each member
function is therefore modelled from the specification of the engine
(metadata extraction from a CDA markup tree, conflict reconciliation,
identifier management, payload insertion, override application and
persistence).  Every definition whose doc comment starts with
"Modelled from the spec:" embeds a member function whose body is not part of
the available sources, faithfully following the specification's wording.
-/

/-- Modelled from the spec: the error kinds of the engine (spec section 7):
MalformedInput, DataConflict (naming the conflicting field), InvalidIdentifier,
SeriesContextUnavailable, IOFailure, PayloadTooLarge, PersistFailure. -/
inductive DcmError where
  | MalformedInput
  | DataConflict (field : String)
  | InvalidIdentifier
  | SeriesContextUnavailable
  | IOFailure
  | PayloadTooLarge
  | PersistFailure
  deriving DecidableEq, Repr

/-- Modelled from the spec: a MarkupNode of the parsed markup tree, with a tag
name, a set of attributes (name to string value, keys unique) and an ordered
sequence of child nodes.  This embeds the XMLNode type consumed by
XMLsearchAttribute and XMLgetAllAttributeValues, whose parser lives in the
external ofxml collaborator. -/
inductive XMLNode where
  | mk (tag : String) (attrs : List (String × String)) (children : List XMLNode)

/-- Tag name of a markup node. -/
def XMLNode.tag : XMLNode → String
  | .mk t _ _ => t

/-- Attribute list of a markup node. -/
def XMLNode.attrs : XMLNode → List (String × String)
  | .mk _ a _ => a

/-- Child list of a markup node. -/
def XMLNode.children : XMLNode → List XMLNode
  | .mk _ _ cs => cs

mutual

/-- Modelled from the spec: DcmEncapsulatedDocument::XMLsearchAttribute, the
recursive tree search (body not in the available sources).  It walks the tree
depth-first in pre-order (current node before its children, children in
document order), collecting the value of the searched attribute at every node
that carries it, and returns the collected values together with the OFBool
result: whether at least one occurrence was found. -/
def XMLsearchAttribute : XMLNode → String → List String × Bool
  | .mk _tag attrs children, attr =>
    let here : List String × Bool :=
      match attrs.lookup attr with
      | some v => ([v], true)
      | none => ([], false)
    let rest := searchChildren children attr
    (here.1 ++ rest.1, here.2 || rest.2)

/-- Helper of XMLsearchAttribute: search an ordered list of sibling subtrees,
concatenating results in document order. -/
def searchChildren : List XMLNode → String → List String × Bool
  | [], _ => ([], false)
  | c :: cs, attr =>
    let r := XMLsearchAttribute c attr
    let rs := searchChildren cs attr
    (r.1 ++ rs.1, r.2 || rs.2)

end

/-- The container format's multi-value delimiter: two backslash characters. -/
def doubleBackslash : String := "\\\\"

/-- Modelled from the spec: DcmEncapsulatedDocument::XMLgetAllAttributeValues
(body not in the available sources).  It retrieves all entries of an attribute
via XMLsearchAttribute and returns them in a single OFString, separated by the
double-backslash delimiter. -/
def XMLgetAllAttributeValues (fileNode : XMLNode) (attr : String) : String :=
  String.intercalate doubleBackslash (XMLsearchAttribute fileNode attr).1

mutual

/-- Specification-side pre-order (depth-first, document-order) listing of the
nodes of a markup tree: the node itself first, then its children left to
right, recursively. -/
def preorder : XMLNode → List XMLNode
  | .mk t a cs => .mk t a cs :: preorderList cs

/-- Pre-order listing of an ordered forest of sibling subtrees. -/
def preorderList : List XMLNode → List XMLNode
  | [] => []
  | c :: cs => preorder c ++ preorderList cs

end

/-- The value a single markup node contributes for a searched attribute:
the attribute's value when the node carries the attribute, none otherwise. -/
def nodeValue (attr : String) (m : XMLNode) : Option String :=
  m.attrs.lookup attr

/-- Modelled from the spec: the private members of class
DcmEncapsulatedDocument (dcencdoc.h lines 206 to 249) that the verified
behaviour depends on.  Members tied to command-line plumbing and encoding
enums that no verified claim touches are omitted. -/
structure DcmEncapsulatedDocument where
  opt_ifname : String
  opt_ofname : String
  opt_patientBirthdate : String
  opt_patientID : String
  opt_patientName : String
  opt_patientSex : String
  opt_conceptCM : String
  opt_conceptCSD : String
  opt_conceptCV : String
  opt_documentTitle : String
  opt_seriesFile : String
  opt_seriesUID : String
  opt_studyUID : String
  opt_readSeriesInfo : Bool
  opt_increment : Bool
  opt_instance : Int
  opt_overrideKeys : List String
  cda_mediaTypes : String
  opt_override : Bool
  deriving DecidableEq, Repr

/-- Modelled from the spec: the constructor's default state — all string
options empty, no override keys, instance number defaulting to 1, flags off. -/
def DcmEncapsulatedDocument.initial : DcmEncapsulatedDocument :=
  ⟨"", "", "", "", "", "", "", "", "", "", "", "", "", false, false, 1, [], "", false⟩

/-- Modelled from the spec: getInputFileName returns the input file name. -/
def DcmEncapsulatedDocument.getInputFileName (d : DcmEncapsulatedDocument) : String :=
  d.opt_ifname

/-- Modelled from the spec: setInputFileName sets the input file name to the
given string. -/
def DcmEncapsulatedDocument.setInputFileName (d : DcmEncapsulatedDocument)
    (fName : String) : DcmEncapsulatedDocument :=
  { d with opt_ifname := fName }

/-- Modelled from the spec: getOutputFileName returns the output file name. -/
def DcmEncapsulatedDocument.getOutputFileName (d : DcmEncapsulatedDocument) : String :=
  d.opt_ofname

/-- Modelled from the spec: setOutputFileName sets the output file name. -/
def DcmEncapsulatedDocument.setOutputFileName (d : DcmEncapsulatedDocument)
    (fName : String) : DcmEncapsulatedDocument :=
  { d with opt_ofname := fName }

/-- Modelled from the spec: setOverrideKeys stores the configured override key
strings, to be applied at the very end of the conversion without validity
checking. -/
def DcmEncapsulatedDocument.setOverrideKeys (d : DcmEncapsulatedDocument)
    (ovkeys : List String) : DcmEncapsulatedDocument :=
  { d with opt_overrideKeys := ovkeys }

/-- The fixed set of semantic fields the CDA metadata extractor pulls out of
the source document (patient data, coded concept, document title). -/
inductive CDAField where
  | patientName
  | patientID
  | patientBirthdate
  | patientSex
  | conceptCM
  | conceptCSD
  | conceptCV
  | documentTitle
  deriving DecidableEq, Repr

/-- Human-readable name of a semantic field, used in DataConflict messages. -/
def fieldName : CDAField → String
  | .patientName => "PatientName"
  | .patientID => "PatientID"
  | .patientBirthdate => "PatientBirthDate"
  | .patientSex => "PatientSex"
  | .conceptCM => "CodeMeaning"
  | .conceptCSD => "CodingSchemeDesignator"
  | .conceptCV => "CodeValue"
  | .documentTitle => "DocumentTitle"

/-- Modelled from the spec: the Attribute-Path Resolver, mapping a semantic
field to the markup-tree search key for it (fixed mapping of the standard,
part 20 section A.8); pure lookup, no I/O. -/
def attrKeyFor : CDAField → String
  | .patientName => "patient.name"
  | .patientID => "patient.id.extension"
  | .patientBirthdate => "patient.birthTime"
  | .patientSex => "patient.administrativeGenderCode"
  | .conceptCM => "code.displayName"
  | .conceptCSD => "code.codeSystemName"
  | .conceptCV => "code.code"
  | .documentTitle => "title"

/-- The extraction order of the semantic fields. -/
def cdaFields : List CDAField :=
  [.patientName, .patientID, .patientBirthdate, .patientSex,
   .conceptCM, .conceptCSD, .conceptCV, .documentTitle]

/-- The previously-known value of a semantic field in the engine state
(supplied by configuration or a series-context file). -/
def priorValue (st : DcmEncapsulatedDocument) : CDAField → String
  | .patientName => st.opt_patientName
  | .patientID => st.opt_patientID
  | .patientBirthdate => st.opt_patientBirthdate
  | .patientSex => st.opt_patientSex
  | .conceptCM => st.opt_conceptCM
  | .conceptCSD => st.opt_conceptCSD
  | .conceptCV => st.opt_conceptCV
  | .documentTitle => st.opt_documentTitle

/-- Record a semantic field's reconciled value in the engine state. -/
def setField (st : DcmEncapsulatedDocument) : CDAField → String → DcmEncapsulatedDocument
  | .patientName, v => { st with opt_patientName := v }
  | .patientID, v => { st with opt_patientID := v }
  | .patientBirthdate, v => { st with opt_patientBirthdate := v }
  | .patientSex, v => { st with opt_patientSex := v }
  | .conceptCM, v => { st with opt_conceptCM := v }
  | .conceptCSD, v => { st with opt_conceptCSD := v }
  | .conceptCV, v => { st with opt_conceptCV := v }
  | .documentTitle, v => { st with opt_documentTitle := v }

/-- The value the markup extraction finds for a semantic field: all matching
entries of the search key, joined by the double-backslash delimiter; the empty
string when the field is absent from the document. -/
def extractField (doc : XMLNode) (f : CDAField) : String :=
  XMLgetAllAttributeValues doc (attrKeyFor f)

/-- Modelled from the spec: per-field reconciliation of getCDAData.  When the
markup extraction found no value the prior value stands; when no prior value
exists the extracted value is recorded; when both exist and agree that value
is used; when both exist and differ the extraction fails with a DataConflict
error identifying the field. -/
def reconcileField (f : CDAField) (prior extracted : String) : Except DcmError String :=
  if extracted = "" then .ok prior
  else if prior = "" then .ok extracted
  else if prior = extracted then .ok extracted
  else .error (.DataConflict (fieldName f))

/-- A field is in conflict for a document and an engine state when markup
extraction and the prior source both supply a non-empty value and they
differ. -/
def conflicted (doc : XMLNode) (st : DcmEncapsulatedDocument) (f : CDAField) : Prop :=
  extractField doc f ≠ "" ∧ priorValue st f ≠ "" ∧ priorValue st f ≠ extractField doc f

instance (doc : XMLNode) (st : DcmEncapsulatedDocument) (f : CDAField) :
    Decidable (conflicted doc st f) := by
  unfold conflicted; infer_instance

/-- The value a non-conflicting field resolves to: the extracted value when
one was found, the prior value otherwise. -/
def resolvedValue (doc : XMLNode) (st : DcmEncapsulatedDocument) (f : CDAField) : String :=
  if extractField doc f = "" then priorValue st f else extractField doc f

/-- Modelled from the spec: the fail-fast field loop of getCDAData —
reconcile each semantic field in order, recording resolved values into the
engine state and halting on the first DataConflict. -/
def reconcileAll (doc : XMLNode) :
    DcmEncapsulatedDocument → List CDAField → Except DcmError DcmEncapsulatedDocument
  | st, [] => .ok st
  | st, f :: fs =>
    match reconcileField f (priorValue st f) (extractField doc f) with
    | .error e => .error e
    | .ok v => reconcileAll doc (setField st f v) fs

/-- Remove duplicates from a list keeping the first occurrence of each entry,
preserving order. -/
def dedupFirst : List String → List String
  | [] => []
  | x :: xs => x :: (dedupFirst xs).filter (fun y => y ≠ x)

/-- The mandatory root element of a CDA source document. -/
def cdaRootTag : String := "ClinicalDocument"

/-- The search key under which a CDA document declares its media types. -/
def mediaTypeKey : String := "mediaType"

/-- Modelled from the spec: DcmEncapsulatedDocument::getCDAData (body not in
the available sources).  It fails with MalformedInput when the mandatory root
element is missing; otherwise it reconciles every semantic field against the
previously-known values, failing fast with DataConflict on the first
disagreeing field, and finally stores the ordered duplicate-free list of all
media types found in the document. -/
def getCDAData (st : DcmEncapsulatedDocument) (doc : XMLNode) :
    Except DcmError DcmEncapsulatedDocument :=
  if doc.tag = cdaRootTag then
    match reconcileAll doc st cdaFields with
    | .error e => .error e
    | .ok st₁ =>
      let mt := String.intercalate doubleBackslash
        (dedupFirst (XMLsearchAttribute doc mediaTypeKey).1)
      .ok { st₁ with cda_mediaTypes := mt }
  else .error .MalformedInput

/-- Split a character list at every dot, keeping empty components, so that a
string is a dot-separated list of components exactly as the UID grammar reads
it.  The result always has at least one component. -/
def splitDots : List Char → List (List Char)
  | [] => [[]]
  | c :: rest =>
    if c = '.' then [] :: splitDots rest
    else
      match splitDots rest with
      | [] => [[c]]
      | comp :: comps => (c :: comp) :: comps

/-- The standard's bound on the total length of a UID. -/
def uidMaxLength : Nat := 64

/-- Modelled from the spec: the syntactic UID check — digits and dots only,
every dot-separated component non-empty, total length within the standard's
bound. -/
def isValidUID (s : String) : Bool :=
  decide (s.length ≤ uidMaxLength) &&
  s.data.all (fun c => c.isDigit || c == '.') &&
  (splitDots s.data).all (fun comp => !comp.isEmpty)

/-- The decimal digit character for the last decimal digit of a number. -/
def digitChar (d : Nat) : Char := Char.ofNat (48 + d % 10)

/-- Fuel-bounded most-significant-first decimal digit expansion of a natural
number; the fuel only needs to cover the number of digits. -/
def natDigits : Nat → Nat → List Char
  | 0, _ => []
  | fuel + 1, n =>
    if n < 10 then [digitChar n]
    else natDigits fuel (n / 10) ++ [digitChar (n % 10)]

/-- The fixed organisation root of generated UIDs, ending in a dot. -/
def uidRootChars : List Char := "1.2.276.0.7230010.3.1.4.".data

/-- Modelled from the spec: the standard UID-generation algorithm used for
fresh identifiers — a fixed numeric organisation root followed by a serial
component, always within the length bound.  The seed models the state of the
external generator. -/
def generateUID (seed : Nat) : String :=
  String.mk (uidRootChars ++ natDigits 30 (seed % 10 ^ 30))

/-- Modelled from the spec: the IdentifierSet determined by createIdentifiers:
study, series and SOP instance UIDs plus the instance number. -/
structure IdentifierSet where
  studyInstanceUID : String
  seriesInstanceUID : String
  sopInstanceUID : String
  instanceNumber : Int
  deriving DecidableEq, Repr

/-- Modelled from the spec: the study and series data a series-context file
contributes: its study and series UIDs and the highest instance number seen. -/
structure SeriesContext where
  studyUID : String
  seriesUID : String
  instanceNumber : Int
  deriving DecidableEq, Repr

/-- Use the supplied UID when one is present, otherwise a freshly generated
one. -/
def orFreshUID (supplied : String) (seed : Nat) : String :=
  if supplied ≠ "" then supplied else generateUID seed

/-- The identifier resolution of createIdentifiers once the supplied UIDs
passed the syntactic check: reuse a loaded series context's study and series
UIDs (incrementing the instance number when increment mode is on), generate
fresh UIDs for missing identifiers otherwise, and always generate a fresh SOP
instance UID. -/
def createIdentifiersCore (st : DcmEncapsulatedDocument) :
    Option SeriesContext → Nat → Except DcmError IdentifierSet
  | some c, seed =>
    if st.opt_increment then
      .ok ⟨c.studyUID, c.seriesUID, generateUID (seed + 2), c.instanceNumber + 1⟩
    else
      .ok ⟨c.studyUID, c.seriesUID, generateUID (seed + 2), st.opt_instance⟩
  | none, seed =>
    .ok ⟨orFreshUID st.opt_studyUID seed, orFreshUID st.opt_seriesUID (seed + 1),
         generateUID (seed + 2), st.opt_instance⟩

/-- Modelled from the spec: DcmEncapsulatedDocument::createIdentifiers (body
not in the available sources).  Caller-supplied study and series UIDs are
first checked syntactically, an invalid one raising InvalidIdentifier; the
resolution itself is createIdentifiersCore.  The ctx argument models the
decoded series-context file, the seed the external UID generator state. -/
def createIdentifiers (st : DcmEncapsulatedDocument) (ctx : Option SeriesContext)
    (seed : Nat) : Except DcmError IdentifierSet :=
  if st.opt_studyUID ≠ "" ∧ isValidUID st.opt_studyUID = false then
    .error .InvalidIdentifier
  else if st.opt_seriesUID ≠ "" ∧ isValidUID st.opt_seriesUID = false then
    .error .InvalidIdentifier
  else createIdentifiersCore st ctx seed

/-- A container element value: a string value or an opaque binary value. -/
inductive DcmValue where
  | vs (s : String)
  | vb (b : List Nat)
  deriving DecidableEq, Repr

/-- The in-memory container dataset: an ordered list of elements, each a
target locator (attribute name) with its value. -/
abbrev DcmDataset := List (String × DcmValue)

/-- Look an element's value up in a dataset. -/
def findValue (ds : DcmDataset) (k : String) : Option DcmValue :=
  (ds.find? (fun e => e.1 == k)).map (fun e => e.2)

/-- Replace the value at a target locator when present, insert the element at
the end when absent. -/
def putValue : DcmDataset → String → DcmValue → DcmDataset
  | [], k, v => [(k, v)]
  | (k', v') :: rest, k, v =>
    if k' = k then (k, v) :: rest else (k', v') :: putValue rest k v

/-- Split a character list at the first equals sign: the part before it and
the part after it (the whole list and an empty remainder when there is no
equals sign). -/
def splitEq : List Char → List Char × List Char
  | [] => ([], [])
  | c :: cs =>
    if c = '=' then ([], cs)
    else ((splitEq cs).1.cons c, (splitEq cs).2)

/-- Modelled from the spec: parsing of one override key string — a target
locator, optionally followed by an equals sign and a literal value. -/
def parseOverrideKey (s : String) : String × String :=
  (String.mk (splitEq s.data).1, String.mk (splitEq s.data).2)

/-- Modelled from the spec: DcmEncapsulatedDocument::applyOverrideKeys (body
not in the available sources).  Each configured override key is applied to
the fully built dataset in configuration order, replacing any existing value
at its target locator or inserting it when absent, with no semantic
validation. -/
def applyOverrideKeys (st : DcmEncapsulatedDocument) (outputDset : DcmDataset) : DcmDataset :=
  st.opt_overrideKeys.foldl
    (fun d s => putValue d (parseOverrideKey s).1 (.vs (parseOverrideKey s).2))
    outputDset

/-- The value the last override key configured for a target locator carries,
if any key targets it. -/
def lastOverrideFor : List String → String → Option String
  | [], _ => none
  | s :: rest, k =>
    match lastOverrideFor rest k with
    | some v => some v
    | none =>
      if (parseOverrideKey s).1 = k then some (parseOverrideKey s).2 else none

/-- The tag under which the document payload is attached. -/
def encapsulatedDocumentTag : String := "EncapsulatedDocument"

/-- The bound on the representable payload element length. -/
def payloadMaxLength : Nat := 2 ^ 32 - 2

/-- Modelled from the spec: DcmEncapsulatedDocument::insertEncapsulatedDocument
(body not in the available sources).  The payload argument models the read
bytes of the source document, none meaning the read failed (IOFailure).  A
payload above the representable bound raises PayloadTooLarge; otherwise the
bytes are attached as one binary element, padded with a single byte when the
raw length is odd so the element's total length is even, and unpadded when
the raw length is even. -/
def insertEncapsulatedDocument (dataset : DcmDataset) (payload : Option (List Nat)) :
    Except DcmError DcmDataset :=
  match payload with
  | none => .error .IOFailure
  | some bytes =>
    if bytes.length > payloadMaxLength then .error .PayloadTooLarge
    else
      let stored := if bytes.length % 2 = 1 then bytes ++ [0] else bytes
      .ok (dataset ++ [(encapsulatedDocumentTag, .vb stored)])

/-- Fuel-bounded most-significant-first decimal string of an integer. -/
def intString (i : Int) : String :=
  match i with
  | .ofNat n => String.mk (natDigits (n + 1) n)
  | .negSucc n => String.mk ('-' :: natDigits (n + 2) (n + 1))

/-- Modelled from the spec: DcmEncapsulatedDocument::createHeader (body not in
the available sources) — the deterministic assembly of the administrative
header: patient module, coded concept, document title, media types and the
identifier chain. -/
def createHeader (st : DcmEncapsulatedDocument) (ids : IdentifierSet) : DcmDataset :=
  [("PatientName", .vs st.opt_patientName),
   ("PatientID", .vs st.opt_patientID),
   ("PatientBirthDate", .vs st.opt_patientBirthdate),
   ("PatientSex", .vs st.opt_patientSex),
   ("CodeMeaning", .vs st.opt_conceptCM),
   ("CodingSchemeDesignator", .vs st.opt_conceptCSD),
   ("CodeValue", .vs st.opt_conceptCV),
   ("DocumentTitle", .vs st.opt_documentTitle),
   ("MIMETypeOfEncapsulatedDocument", .vs st.cda_mediaTypes),
   ("StudyInstanceUID", .vs ids.studyInstanceUID),
   ("SeriesInstanceUID", .vs ids.seriesInstanceUID),
   ("SOPInstanceUID", .vs ids.sopInstanceUID),
   ("InstanceNumber", .vs (intString ids.instanceNumber))]

/-- Byte encoding of a string for the container codec model: its length
followed by its character codes. -/
def encodeString (s : String) : List Nat :=
  s.data.length :: s.data.map Char.toNat

/-- Byte encoding of one element value: a marker byte distinguishing string
from binary values, then the length-prefixed payload. -/
def encodeValue : DcmValue → List Nat
  | .vs s => 0 :: encodeString s
  | .vb b => 1 :: b.length :: b

/-- Byte encoding of one dataset element: the length-prefixed tag name, then
the value. -/
def encodeElement (e : String × DcmValue) : List Nat :=
  encodeString e.1 ++ encodeValue e.2

/-- Modelled from the spec: the container codec's write direction — the
byte encoding of a whole dataset, element by element in order. -/
def encodeDataset : DcmDataset → List Nat
  | [] => []
  | e :: rest => encodeElement e ++ encodeDataset rest

/-- Fuel-bounded decoder of the container codec model; the fuel only needs to
cover the number of elements. -/
def decodeAux : Nat → List Nat → Option DcmDataset
  | _, [] => some []
  | 0, _ :: _ => none
  | fuel + 1, tagLen :: rest =>
    if tagLen ≤ rest.length then
      let tagChars := (rest.take tagLen).map Char.ofNat
      match rest.drop tagLen with
      | 0 :: valLen :: rest₂ =>
        if valLen ≤ rest₂.length then
          match decodeAux fuel (rest₂.drop valLen) with
          | some ds =>
            some ((String.mk tagChars,
                   .vs (String.mk ((rest₂.take valLen).map Char.ofNat))) :: ds)
          | none => none
        else none
      | 1 :: valLen :: rest₂ =>
        if valLen ≤ rest₂.length then
          match decodeAux fuel (rest₂.drop valLen) with
          | some ds => some ((String.mk tagChars, .vb (rest₂.take valLen)) :: ds)
          | none => none
        else none
      | _ => none
    else none

/-- Modelled from the spec: the container codec's read direction — decoding a
byte stream back into a dataset, none on malformed input. -/
def decodeDataset (bytes : List Nat) : Option DcmDataset :=
  decodeAux bytes.length bytes

/-- Modelled from the spec: DcmEncapsulatedDocument::saveFile (body not in the
available sources) — persist the completed dataset through the collaborator
codec to the configured output file; the result models the written file as
its name paired with its bytes. -/
def saveFile (st : DcmEncapsulatedDocument) (ds : DcmDataset) : String × List Nat :=
  (st.opt_ofname, encodeDataset ds)

/-- Modelled from the spec: the end-to-end conversion pipeline for a
CDA source: metadata extraction, identifier resolution, header construction,
payload insertion, override application and persistence, each stage returning
its error immediately on first detection. -/
def runConversion (st : DcmEncapsulatedDocument) (doc : XMLNode)
    (ctx : Option SeriesContext) (seed : Nat) (payload : Option (List Nat)) :
    Except DcmError (String × List Nat) :=
  match getCDAData st doc with
  | .error e => .error e
  | .ok st₁ =>
    match createIdentifiers st₁ ctx seed with
    | .error e => .error e
    | .ok ids =>
      match insertEncapsulatedDocument (createHeader st₁ ids) payload with
      | .error e => .error e
      | .ok ds => .ok (saveFile st₁ (applyOverrideKeys st₁ ds))

/-- The output file a run produces: none whenever any stage failed. -/
def writtenOutput (st : DcmEncapsulatedDocument) (doc : XMLNode)
    (ctx : Option SeriesContext) (seed : Nat) (payload : Option (List Nat)) :
    Option (String × List Nat) :=
  match runConversion st doc ctx seed payload with
  | .ok out => some out
  | .error _ => none

theorem preorder_mk (t : String) (a : List (String × String)) (cs : List XMLNode) :
    preorder (.mk t a cs) = .mk t a cs :: preorderList cs := rfl

theorem preorderList_nil : preorderList [] = [] := rfl

theorem preorderList_cons (c : XMLNode) (cs : List XMLNode) :
    preorderList (c :: cs) = preorder c ++ preorderList cs := rfl

theorem search_mk (t : String) (a : List (String × String)) (cs : List XMLNode)
    (attr : String) :
    XMLsearchAttribute (.mk t a cs) attr =
      (let here : List String × Bool :=
        match a.lookup attr with
        | some v => ([v], true)
        | none => ([], false)
       let rest := searchChildren cs attr
       (here.1 ++ rest.1, here.2 || rest.2)) := rfl

theorem searchChildren_nil (attr : String) : searchChildren [] attr = ([], false) := rfl

theorem searchChildren_cons (c : XMLNode) (cs : List XMLNode) (attr : String) :
    searchChildren (c :: cs) attr =
      ((XMLsearchAttribute c attr).1 ++ (searchChildren cs attr).1,
       (XMLsearchAttribute c attr).2 || (searchChildren cs attr).2) := rfl

mutual

theorem search_fst (n : XMLNode) (attr : String) :
    (XMLsearchAttribute n attr).1 = (preorder n).filterMap (nodeValue attr) := by
  cases n with
  | mk t a cs =>
    rw [search_mk, preorder_mk]
    simp only [List.filterMap_cons, searchChildren_fst cs attr, nodeValue, XMLNode.attrs]
    cases a.lookup attr <;> simp

theorem searchChildren_fst (l : List XMLNode) (attr : String) :
    (searchChildren l attr).1 = (preorderList l).filterMap (nodeValue attr) := by
  cases l with
  | nil => simp [searchChildren_nil, preorderList_nil]
  | cons c cs =>
    rw [searchChildren_cons, preorderList_cons]
    simp [search_fst c attr, searchChildren_fst cs attr]

end

mutual

theorem search_snd (n : XMLNode) (attr : String) :
    (XMLsearchAttribute n attr).2 =
      (preorder n).any (fun m => (nodeValue attr m).isSome) := by
  cases n with
  | mk t a cs =>
    rw [search_mk, preorder_mk]
    simp only [List.any_cons, searchChildren_snd cs attr, nodeValue, XMLNode.attrs]
    cases a.lookup attr <;> simp

theorem searchChildren_snd (l : List XMLNode) (attr : String) :
    (searchChildren l attr).2 =
      (preorderList l).any (fun m => (nodeValue attr m).isSome) := by
  cases l with
  | nil => simp [searchChildren_nil, preorderList_nil]
  | cons c cs =>
    rw [searchChildren_cons, preorderList_cons]
    simp [search_snd c attr, searchChildren_snd cs attr]

end

theorem length_filterMap_eq_length_filter {α β : Type} (f : α → Option β) (l : List α) :
    (l.filterMap f).length = (l.filter (fun a => (f a).isSome)).length := by
  induction l with
  | nil => rfl
  | cons x xs ih =>
    cases hx : f x <;> simp [List.filterMap_cons, List.filter_cons, hx, ih]

/-- C1: for every markup tree and every attribute key, the tree search
(XMLgetAllAttributeValues over XMLsearchAttribute) returns exactly one value
per matching node — as many values as there are occurrences of a node
carrying the key, in depth-first pre-order document order — concatenated into
a single string with the double-backslash separator between consecutive
values. -/
theorem XMLgetAllAttributeValues_documentOrder (n : XMLNode) (attr : String) :
    XMLgetAllAttributeValues n attr =
      String.intercalate doubleBackslash ((preorder n).filterMap (nodeValue attr))
    ∧ (XMLsearchAttribute n attr).1 = (preorder n).filterMap (nodeValue attr)
    ∧ (XMLsearchAttribute n attr).1.length =
        ((preorder n).filter (fun m => (nodeValue attr m).isSome)).length := by
  refine ⟨?_, search_fst n attr, ?_⟩
  · rw [XMLgetAllAttributeValues, search_fst n attr]
  · rw [search_fst n attr, length_filterMap_eq_length_filter]

/-- C8: for every markup tree and attribute key, the boolean indicator
returned by XMLsearchAttribute is true exactly when at least one matching
node exists, equivalently exactly when the collected value list is non-empty,
so a field that is absent is distinguishable from one present with an empty
value. -/
theorem XMLsearchAttribute_found_iff (n : XMLNode) (attr : String) :
    ((XMLsearchAttribute n attr).2 = true ↔
      ∃ m ∈ preorder n, (nodeValue attr m).isSome)
    ∧ ((XMLsearchAttribute n attr).2 = true ↔ (XMLsearchAttribute n attr).1 ≠ []) := by
  constructor
  · rw [search_snd n attr, List.any_eq_true]
  · rw [search_snd n attr, search_fst n attr, List.any_eq_true]
    rw [Ne, List.filterMap_eq_nil_iff]
    push_neg
    simp [Option.isSome_iff_ne_none]

/-- C10: setting the input file name makes the getter return exactly that
string and leaves the output file name unchanged, and symmetrically for the
output file name. -/
theorem fileName_get_set (d : DcmEncapsulatedDocument) (f : String) :
    (d.setInputFileName f).getInputFileName = f ∧
    (d.setOutputFileName f).getOutputFileName = f ∧
    (d.setInputFileName f).getOutputFileName = d.getOutputFileName ∧
    (d.setOutputFileName f).getInputFileName = d.getInputFileName :=
  ⟨rfl, rfl, rfl, rfl⟩

theorem priorValue_setField_self (st : DcmEncapsulatedDocument) (f : CDAField) (v : String) :
    priorValue (setField st f v) f = v := by
  cases f <;> rfl

theorem priorValue_setField_ne (st : DcmEncapsulatedDocument) (f g : CDAField) (v : String)
    (h : f ≠ g) : priorValue (setField st f v) g = priorValue st g := by
  cases f <;> cases g <;> first | exact absurd rfl h | rfl

theorem conflicted_setField_iff (doc : XMLNode) (st : DcmEncapsulatedDocument)
    (f g : CDAField) (v : String) (h : f ≠ g) :
    conflicted doc (setField st f v) g ↔ conflicted doc st g := by
  unfold conflicted
  rw [priorValue_setField_ne st f g v h]

theorem resolvedValue_setField_ne (doc : XMLNode) (st : DcmEncapsulatedDocument)
    (f g : CDAField) (v : String) (h : f ≠ g) :
    resolvedValue doc (setField st f v) g = resolvedValue doc st g := by
  unfold resolvedValue
  rw [priorValue_setField_ne st f g v h]

theorem reconcileField_ok_of_not_conflicted (f : CDAField) (p e : String)
    (h : ¬ (e ≠ "" ∧ p ≠ "" ∧ p ≠ e)) :
    reconcileField f p e = .ok (if e = "" then p else e) := by
  unfold reconcileField
  by_cases he : e = ""
  · simp [he]
  · push_neg at h
    by_cases hp : p = ""
    · simp [he, hp]
    · have hpe : p = e := h he hp
      simp [he, hp, hpe]

theorem reconcileField_error_of_conflicted (f : CDAField) (p e : String)
    (h : e ≠ "" ∧ p ≠ "" ∧ p ≠ e) :
    reconcileField f p e = .error (.DataConflict (fieldName f)) := by
  obtain ⟨he, hp, hne⟩ := h
  simp [reconcileField, he, hp, hne]

theorem reconcileAll_ok (doc : XMLNode) :
    ∀ (fs : List CDAField) (st : DcmEncapsulatedDocument), fs.Nodup →
      (∀ f ∈ fs, ¬ conflicted doc st f) →
      ∃ st', reconcileAll doc st fs = .ok st' ∧
        (∀ f ∈ fs, priorValue st' f = resolvedValue doc st f) ∧
        (∀ g, g ∉ fs → priorValue st' g = priorValue st g) := by
  intro fs
  induction fs with
  | nil =>
    intro st _ _
    exact ⟨st, rfl, by simp, fun g _ => rfl⟩
  | cons f fs ih =>
    intro st hnd hnc
    have hf : ¬ conflicted doc st f := hnc f (by simp)
    have hok := reconcileField_ok_of_not_conflicted f (priorValue st f) (extractField doc f)
      (by unfold conflicted at hf; exact hf)
    have hfnotin : f ∉ fs := (List.nodup_cons.mp hnd).1
    have hndtail : fs.Nodup := (List.nodup_cons.mp hnd).2
    have hnctail : ∀ g ∈ fs, ¬ conflicted doc (setField st f (resolvedValue doc st f)) g := by
      intro g hg
      have hne : f ≠ g := fun h => hfnotin (h ▸ hg)
      rw [conflicted_setField_iff doc st f g _ hne]
      exact hnc g (List.mem_cons_of_mem f hg)
    obtain ⟨st', hrec, hvals, hpres⟩ := ih (setField st f (resolvedValue doc st f)) hndtail hnctail
    refine ⟨st', ?_, ?_, ?_⟩
    · show reconcileAll doc st (f :: fs) = .ok st'
      rw [reconcileAll, hok]
      show reconcileAll doc (setField st f (if extractField doc f = "" then priorValue st f else extractField doc f)) fs = .ok st'
      exact hrec
    · intro x hx
      rcases List.mem_cons.mp hx with hx | hx
      · subst hx
        rw [hpres x hfnotin, priorValue_setField_self]
      · have hne : f ≠ x := fun h => hfnotin (h ▸ hx)
        rw [hvals x hx, resolvedValue_setField_ne doc st f x _ hne]
    · intro g hg
      have hgfs : g ∉ fs := fun h => hg (List.mem_cons_of_mem f h)
      have hne : f ≠ g := fun h => hg (h ▸ List.mem_cons_self f fs)
      rw [hpres g hgfs, priorValue_setField_ne st f g _ hne]

theorem reconcileAll_firstConflict (doc : XMLNode) :
    ∀ (fs₁ : List CDAField) (f : CDAField) (fs₂ : List CDAField)
      (st : DcmEncapsulatedDocument), (fs₁ ++ f :: fs₂).Nodup →
      (∀ g ∈ fs₁, ¬ conflicted doc st g) → conflicted doc st f →
      reconcileAll doc st (fs₁ ++ f :: fs₂) = .error (.DataConflict (fieldName f)) := by
  intro fs₁
  induction fs₁ with
  | nil =>
    intro f fs₂ st _ _ hf
    have herr := reconcileField_error_of_conflicted f (priorValue st f) (extractField doc f)
      (by unfold conflicted at hf; exact hf)
    show reconcileAll doc st (f :: fs₂) = .error (.DataConflict (fieldName f))
    rw [reconcileAll, herr]
  | cons g fs₁ ih =>
    intro f fs₂ st hnd hnc hf
    have hg : ¬ conflicted doc st g := hnc g (by simp)
    have hok := reconcileField_ok_of_not_conflicted g (priorValue st g) (extractField doc g)
      (by unfold conflicted at hg; exact hg)
    have hgnotin : g ∉ fs₁ ++ f :: fs₂ := (List.nodup_cons.mp hnd).1
    have hgf : g ≠ f := by
      intro h
      exact hgnotin (List.mem_append_right fs₁ (h ▸ List.mem_cons_self f fs₂))
    show reconcileAll doc st (g :: (fs₁ ++ f :: fs₂)) = .error (.DataConflict (fieldName f))
    rw [reconcileAll, hok]
    show reconcileAll doc (setField st g (if extractField doc g = "" then priorValue st g else extractField doc g)) (fs₁ ++ f :: fs₂) = .error (.DataConflict (fieldName f))
    apply ih f fs₂ _ (List.nodup_cons.mp hnd).2
    · intro x hx
      have hne : g ≠ x := fun h => hgnotin (h ▸ List.mem_append_left (f :: fs₂) hx)
      rw [conflicted_setField_iff doc st g x _ hne]
      exact hnc x (List.mem_cons_of_mem g hx)
    · rw [conflicted_setField_iff doc st g f _ hgf]
      exact hf

theorem cdaFields_nodup : cdaFields.Nodup := by decide

theorem priorValue_set_mediaTypes (st : DcmEncapsulatedDocument) (mt : String)
    (g : CDAField) : priorValue { st with cda_mediaTypes := mt } g = priorValue st g := by
  cases g <;> rfl

/-- C2: for every semantic field, if a non-empty value is supplied both by a
prior source and by markup extraction and the two differ, getCDAData fails
with a DataConflict error naming that field, halting at the first conflicting
field in extraction order; if no field conflicts, extraction succeeds, and
each field resolves to the common value whenever prior and extracted values
are equal (equal values are never a conflict). -/
theorem getCDAData_dataConflict (st : DcmEncapsulatedDocument) (doc : XMLNode)
    (fs₁ fs₂ : List CDAField) (f : CDAField)
    (hroot : doc.tag = cdaRootTag)
    (hsplit : cdaFields = fs₁ ++ f :: fs₂) :
    ((∀ g ∈ fs₁, ¬ conflicted doc st g) → conflicted doc st f →
      getCDAData st doc = .error (.DataConflict (fieldName f)))
    ∧ ((∀ g ∈ cdaFields, ¬ conflicted doc st g) →
      ∃ st', getCDAData st doc = .ok st' ∧
        ∀ g ∈ cdaFields, priorValue st' g = resolvedValue doc st g)
    ∧ (priorValue st f ≠ "" → extractField doc f = priorValue st f →
      ¬ conflicted doc st f) := by
  refine ⟨?_, ?_, ?_⟩
  · intro hnc hf
    have hnd : (fs₁ ++ f :: fs₂).Nodup := hsplit ▸ cdaFields_nodup
    have herr := reconcileAll_firstConflict doc fs₁ f fs₂ st hnd hnc hf
    rw [getCDAData, if_pos hroot, hsplit, herr]
  · intro hnc
    obtain ⟨st', hrec, hvals, _⟩ := reconcileAll_ok doc cdaFields st cdaFields_nodup hnc
    rw [getCDAData, if_pos hroot, hrec]
    refine ⟨_, rfl, ?_⟩
    intro g hg
    rw [priorValue_set_mediaTypes, hvals g hg]
  · intro hp he hc
    exact hc.2.2 he.symm

/-- Witness for C2 at a concrete conflicting input: the prior patient name
"A" and the extracted patient name "B" differ, so getCDAData fails with a
DataConflict naming PatientName. -/
theorem getCDAData_dataConflict_witness :
    getCDAData { DcmEncapsulatedDocument.initial with opt_patientName := "A" }
      (.mk "ClinicalDocument" [("patient.name", "B")] []) =
      .error (.DataConflict "PatientName") := by
  have h := getCDAData_dataConflict
    { DcmEncapsulatedDocument.initial with opt_patientName := "A" }
    (.mk "ClinicalDocument" [("patient.name", "B")] [])
    [] [.patientID, .patientBirthdate, .patientSex,
        .conceptCM, .conceptCSD, .conceptCV, .documentTitle]
    .patientName rfl rfl
  exact h.1 (by simp) (by decide)

/-- C6: a source document whose mandatory root element is missing makes the
run fail with MalformedInput — getCDAData reports it immediately, the
pipeline propagates exactly that error, and no output file is produced. -/
theorem runConversion_malformedRoot (st : DcmEncapsulatedDocument) (doc : XMLNode)
    (ctx : Option SeriesContext) (seed : Nat) (payload : Option (List Nat))
    (hroot : doc.tag ≠ cdaRootTag) :
    runConversion st doc ctx seed payload = .error .MalformedInput ∧
    writtenOutput st doc ctx seed payload = none ∧
    getCDAData st doc = .error .MalformedInput := by
  have hg : getCDAData st doc = .error .MalformedInput := by
    rw [getCDAData, if_neg hroot]
  refine ⟨?_, ?_, hg⟩
  · rw [runConversion, hg]
  · rw [writtenOutput, runConversion, hg]

/-- Witness for C6 at a concrete input: a document rooted at an html element
instead of the mandatory CDA root yields MalformedInput and no output. -/
theorem runConversion_malformedRoot_witness :
    runConversion DcmEncapsulatedDocument.initial (.mk "html" [] []) none 0 (some [1]) =
      .error .MalformedInput ∧
    writtenOutput DcmEncapsulatedDocument.initial (.mk "html" [] []) none 0 (some [1]) =
      none ∧
    getCDAData DcmEncapsulatedDocument.initial (.mk "html" [] []) =
      .error .MalformedInput :=
  runConversion_malformedRoot DcmEncapsulatedDocument.initial (.mk "html" [] [])
    none 0 (some [1]) (by decide)

theorem splitDots_ne_nil (l : List Char) : splitDots l ≠ [] := by
  cases l with
  | nil => simp [splitDots]
  | cons c rest =>
    rw [splitDots]
    split
    · simp
    · split <;> simp

theorem splitDots_no_dot (l : List Char) (h : ∀ c ∈ l, c ≠ '.') : splitDots l = [l] := by
  induction l with
  | nil => rfl
  | cons c rest ih =>
    have hc : c ≠ '.' := h c (by simp)
    have hrest := ih (fun x hx => h x (List.mem_cons_of_mem c hx))
    rw [splitDots, if_neg hc, hrest]

theorem splitDots_uidRoot (ds : List Char) :
    splitDots (uidRootChars ++ ds) =
      [['1'], ['2'], ['2', '7', '6'], ['0'], ['7', '2', '3', '0', '0', '1', '0'],
       ['3'], ['1'], ['4']] ++ splitDots ds := rfl

theorem natDigits_length_le (fuel : Nat) : ∀ n : Nat, (natDigits fuel n).length ≤ fuel := by
  induction fuel with
  | zero => intro n; simp [natDigits]
  | succ f ih =>
    intro n
    rw [natDigits]
    split
    · simp
    · simp only [List.length_append, List.length_cons, List.length_nil]
      have := ih (n / 10)
      omega

theorem natDigits_ne_nil (fuel n : Nat) : natDigits (fuel + 1) n ≠ [] := by
  rw [natDigits]
  split
  · simp
  · simp

theorem digitChar_isDigit (d : Nat) : (digitChar d).isDigit = true := by
  unfold digitChar
  have h : d % 10 < 10 := Nat.mod_lt _ (by norm_num)
  set k := d % 10 with hk
  interval_cases k <;> decide

theorem digitChar_ne_dot (d : Nat) : digitChar d ≠ '.' := by
  intro h
  have := digitChar_isDigit d
  rw [h] at this
  exact absurd this (by decide)

theorem natDigits_mem (fuel : Nat) :
    ∀ (n : Nat) (c : Char), c ∈ natDigits fuel n → c.isDigit = true ∧ c ≠ '.' := by
  induction fuel with
  | zero => intro n c hc; simp [natDigits] at hc
  | succ f ih =>
    intro n c hc
    rw [natDigits] at hc
    by_cases h : n < 10
    · rw [if_pos h] at hc
      simp at hc
      subst hc
      exact ⟨digitChar_isDigit n, digitChar_ne_dot n⟩
    · rw [if_neg h] at hc
      rcases List.mem_append.mp hc with h1 | h1
      · exact ih (n / 10) c h1
      · simp at h1
        subst h1
        exact ⟨digitChar_isDigit _, digitChar_ne_dot _⟩

theorem generateUID_valid (seed : Nat) : isValidUID (generateUID seed) = true := by
  unfold generateUID isValidUID uidMaxLength
  have hmem := natDigits_mem 30 (seed % 10 ^ 30)
  have hlen := natDigits_length_le 30 (seed % 10 ^ 30)
  have hnn : natDigits 30 (seed % 10 ^ 30) ≠ [] := natDigits_ne_nil 29 _
  simp only [Bool.and_eq_true, decide_eq_true_eq, List.all_eq_true]
  refine ⟨⟨?_, ?_⟩, ?_⟩
  · show (uidRootChars ++ natDigits 30 (seed % 10 ^ 30)).length ≤ 64
    rw [List.length_append]
    have : uidRootChars.length = 24 := rfl
    omega
  · intro c hc
    rcases List.mem_append.mp hc with h1 | h1
    · fin_cases h1 <;> decide
    · have := (hmem c h1).1
      simp [this]
  · intro comp hcomp
    rw [splitDots_uidRoot, splitDots_no_dot _ (fun c hc => (hmem c hc).2)] at hcomp
    simp only [List.mem_append] at hcomp
    rcases hcomp with h1 | h1
    · fin_cases h1 <;> decide
    · simp at h1
      subst h1
      simpa [List.isEmpty_iff] using hnn

theorem orFreshUID_valid (s : String) (seed : Nat) (h : s ≠ "" → isValidUID s = true) :
    isValidUID (orFreshUID s seed) = true := by
  unfold orFreshUID
  split
  · exact h (by assumption)
  · exact generateUID_valid seed


theorem createIdentifiersCore_valid (st : DcmEncapsulatedDocument)
    (ctx : Option SeriesContext) (seed : Nat) (ids : IdentifierSet)
    (hctx : ∀ c, ctx = some c → isValidUID c.studyUID = true ∧ isValidUID c.seriesUID = true)
    (hsup1 : st.opt_studyUID ≠ "" → isValidUID st.opt_studyUID = true)
    (hsup2 : st.opt_seriesUID ≠ "" → isValidUID st.opt_seriesUID = true)
    (hok : createIdentifiersCore st ctx seed = .ok ids) :
    isValidUID ids.studyInstanceUID = true ∧
    isValidUID ids.seriesInstanceUID = true ∧
    isValidUID ids.sopInstanceUID = true := by
  rcases ctx with _ | c
  · simp only [createIdentifiersCore, Except.ok.injEq] at hok
    subst hok
    exact ⟨orFreshUID_valid _ _ hsup1, orFreshUID_valid _ _ hsup2, generateUID_valid _⟩
  · have hc := hctx c rfl
    simp only [createIdentifiersCore] at hok
    split at hok <;>
      (simp only [Except.ok.injEq] at hok; subst hok;
       exact ⟨hc.1, hc.2, generateUID_valid _⟩)

theorem createIdentifiers_ok_elim (st : DcmEncapsulatedDocument)
    (ctx : Option SeriesContext) (seed : Nat) (ids : IdentifierSet)
    (hok : createIdentifiers st ctx seed = .ok ids) :
    (st.opt_studyUID ≠ "" → isValidUID st.opt_studyUID = true) ∧
    (st.opt_seriesUID ≠ "" → isValidUID st.opt_seriesUID = true) ∧
    createIdentifiersCore st ctx seed = .ok ids := by
  unfold createIdentifiers at hok
  split at hok
  · exact absurd hok (by simp)
  · split at hok
    · exact absurd hok (by simp)
    · rename_i hg1 hg2
      push_neg at hg1 hg2
      exact ⟨fun h => Bool.not_eq_false _ ▸ hg1 h, fun h => Bool.not_eq_false _ ▸ hg2 h, hok⟩

/-- C3: every UID assigned by a run of createIdentifiers is syntactically a
valid UID (given that a loaded series context itself carries valid UIDs, as a
context file produced by an earlier run does), and for any two runs sharing
the same series context with increment mode enabled, the study and series
instance UIDs are identical across the runs while the instance number
strictly increases: each run's instance number is the context's plus one. -/
theorem createIdentifiers_uid_invariants :
    (∀ (st : DcmEncapsulatedDocument) (ctx : Option SeriesContext) (seed : Nat)
      (ids : IdentifierSet),
      (∀ c, ctx = some c → isValidUID c.studyUID = true ∧ isValidUID c.seriesUID = true) →
      createIdentifiers st ctx seed = .ok ids →
      isValidUID ids.studyInstanceUID = true ∧
      isValidUID ids.seriesInstanceUID = true ∧
      isValidUID ids.sopInstanceUID = true) ∧
    (∀ (st₁ st₂ : DcmEncapsulatedDocument) (c : SeriesContext) (seed₁ seed₂ : Nat)
      (ids₁ ids₂ : IdentifierSet),
      st₁.opt_increment = true → st₂.opt_increment = true →
      createIdentifiers st₁ (some c) seed₁ = .ok ids₁ →
      createIdentifiers st₂ (some c) seed₂ = .ok ids₂ →
      ids₁.studyInstanceUID = ids₂.studyInstanceUID ∧
      ids₁.seriesInstanceUID = ids₂.seriesInstanceUID ∧
      ids₁.instanceNumber = c.instanceNumber + 1 ∧
      ids₂.instanceNumber = c.instanceNumber + 1 ∧
      c.instanceNumber < ids₁.instanceNumber) := by
  constructor
  · intro st ctx seed ids hctx hok
    obtain ⟨h1, h2, hcore⟩ := createIdentifiers_ok_elim st ctx seed ids hok
    exact createIdentifiersCore_valid st ctx seed ids hctx h1 h2 hcore
  · intro st₁ st₂ c seed₁ seed₂ ids₁ ids₂ hinc₁ hinc₂ hok₁ hok₂
    obtain ⟨_, _, hcore₁⟩ := createIdentifiers_ok_elim st₁ (some c) seed₁ ids₁ hok₁
    obtain ⟨_, _, hcore₂⟩ := createIdentifiers_ok_elim st₂ (some c) seed₂ ids₂ hok₂
    simp only [createIdentifiersCore] at hcore₁ hcore₂
    rw [if_pos hinc₁] at hcore₁
    rw [if_pos hinc₂] at hcore₂
    simp only [Except.ok.injEq] at hcore₁ hcore₂
    subst hcore₁
    subst hcore₂
    exact ⟨rfl, rfl, rfl, rfl, lt_add_one c.instanceNumber⟩

/-- Witness for C3 at a concrete input: a run with increment mode over the
series context with study UID 1.2.3, series UID 4.5.6 and instance number 7
reuses both UIDs, generates a fresh valid SOP instance UID and assigns
instance number 8; all three assigned UIDs are valid. -/
theorem createIdentifiers_uid_invariants_witness :
    createIdentifiers { DcmEncapsulatedDocument.initial with opt_increment := true }
        (some ⟨"1.2.3", "4.5.6", 7⟩) 0 =
      .ok ⟨"1.2.3", "4.5.6", "1.2.276.0.7230010.3.1.4.2", 8⟩ ∧
    (isValidUID (⟨"1.2.3", "4.5.6", "1.2.276.0.7230010.3.1.4.2", 8⟩ :
        IdentifierSet).studyInstanceUID = true ∧
     isValidUID (⟨"1.2.3", "4.5.6", "1.2.276.0.7230010.3.1.4.2", 8⟩ :
        IdentifierSet).seriesInstanceUID = true ∧
     isValidUID (⟨"1.2.3", "4.5.6", "1.2.276.0.7230010.3.1.4.2", 8⟩ :
        IdentifierSet).sopInstanceUID = true) := by
  constructor
  · rfl
  · exact createIdentifiers_uid_invariants.1
      { DcmEncapsulatedDocument.initial with opt_increment := true }
      (some ⟨"1.2.3", "4.5.6", 7⟩) 0
      ⟨"1.2.3", "4.5.6", "1.2.276.0.7230010.3.1.4.2", 8⟩
      (by
        intro c hc
        injection hc with h
        subst h
        exact ⟨by decide, by decide⟩)
      (by rfl)

/-- C7: a caller-supplied study or series UID that fails the syntactic check
(digits and dots only, every dot-separated component non-empty, total length
within the standard's bound) makes createIdentifiers fail with
InvalidIdentifier; and the check isValidUID holds exactly when those three
conditions do. -/
theorem createIdentifiers_invalidUID :
    (∀ (st : DcmEncapsulatedDocument) (ctx : Option SeriesContext) (seed : Nat),
      ((st.opt_studyUID ≠ "" ∧ isValidUID st.opt_studyUID = false) ∨
       (st.opt_seriesUID ≠ "" ∧ isValidUID st.opt_seriesUID = false)) →
      createIdentifiers st ctx seed = .error .InvalidIdentifier) ∧
    (∀ s : String, isValidUID s = true ↔
      (s.length ≤ uidMaxLength ∧ (∀ c ∈ s.data, c.isDigit = true ∨ c = '.') ∧
       ∀ comp ∈ splitDots s.data, comp ≠ [])) := by
  constructor
  · intro st ctx seed h
    unfold createIdentifiers
    rcases h with h | h
    · rw [if_pos h]
    · by_cases hg : st.opt_studyUID ≠ "" ∧ isValidUID st.opt_studyUID = false
      · rw [if_pos hg]
      · rw [if_neg hg, if_pos h]
  · intro s
    unfold isValidUID
    simp only [Bool.and_eq_true, decide_eq_true_eq, List.all_eq_true, Bool.or_eq_true,
      beq_iff_eq]
    constructor
    · rintro ⟨⟨h1, h2⟩, h3⟩
      refine ⟨h1, h2, ?_⟩
      intro comp hcomp hnil
      have hne := h3 comp hcomp
      rw [hnil] at hne
      exact absurd hne (by decide)
    · rintro ⟨h1, h2, h3⟩
      refine ⟨⟨h1, h2⟩, ?_⟩
      intro comp hcomp
      have hne := h3 comp hcomp
      cases comp with
      | nil => exact absurd rfl hne
      | cons a l => rfl

/-- Witness for C7 at a concrete input: the supplied study UID 1..2 has an
empty middle component, so createIdentifiers raises InvalidIdentifier. -/
theorem createIdentifiers_invalidUID_witness :
    createIdentifiers { DcmEncapsulatedDocument.initial with opt_studyUID := "1..2" }
      none 0 = .error .InvalidIdentifier :=
  createIdentifiers_invalidUID.1
    { DcmEncapsulatedDocument.initial with opt_studyUID := "1..2" } none 0
    (Or.inl ⟨by decide, by decide⟩)

/-- C4: for every payload that fits the representable bound,
insertEncapsulatedDocument attaches the bytes as one binary element whose
stored length is even: an odd-length payload gets exactly one padding byte
appended, an even-length payload is inserted unpadded. -/
theorem insertEncapsulatedDocument_padding (dataset : DcmDataset) (bytes : List Nat)
    (h : bytes.length ≤ payloadMaxLength) :
    ∃ stored, insertEncapsulatedDocument dataset (some bytes) =
        .ok (dataset ++ [(encapsulatedDocumentTag, .vb stored)]) ∧
      stored.length % 2 = 0 ∧
      (bytes.length % 2 = 0 → stored = bytes) ∧
      (bytes.length % 2 = 1 → stored = bytes ++ [0]) := by
  refine ⟨if bytes.length % 2 = 1 then bytes ++ [0] else bytes, ?_, ?_, ?_, ?_⟩
  · simp only [insertEncapsulatedDocument]
    rw [if_neg (by omega)]
  · by_cases hb : bytes.length % 2 = 1
    · rw [if_pos hb]
      rw [List.length_append]
      simp only [List.length_cons, List.length_nil]
      omega
    · rw [if_neg hb]
      omega
  · intro he
    rw [if_neg (by omega)]
  · intro ho
    rw [if_pos ho]

/-- Witness for C4 at a concrete input: the single byte 7 is an odd-length
payload, so the stored element carries one padding byte. -/
theorem insertEncapsulatedDocument_padding_witness :
    ∃ stored, insertEncapsulatedDocument [] (some [7]) =
        .ok ([] ++ [(encapsulatedDocumentTag, .vb stored)]) ∧
      stored.length % 2 = 0 ∧
      ([7].length % 2 = 0 → stored = [7]) ∧
      ([7].length % 2 = 1 → stored = [7] ++ [0]) :=
  insertEncapsulatedDocument_padding [] [7] (by norm_num [payloadMaxLength])

theorem findValue_putValue_self (ds : DcmDataset) (k : String) (v : DcmValue) :
    findValue (putValue ds k v) k = some v := by
  induction ds with
  | nil => simp [putValue, findValue]
  | cons e rest ih =>
    obtain ⟨k', v'⟩ := e
    by_cases h : k' = k
    · subst h
      simp [putValue, findValue]
    · rw [putValue, if_neg h, findValue,
        List.find?_cons_of_neg _ (by simp [h])]
      exact ih

theorem findValue_putValue_ne (ds : DcmDataset) (k k' : String) (v : DcmValue)
    (h : k' ≠ k) : findValue (putValue ds k' v) k = findValue ds k := by
  induction ds with
  | nil =>
    rw [putValue, findValue, List.find?_cons_of_neg _ (by simp [h])]
    rfl
  | cons e rest ih =>
    obtain ⟨a, b⟩ := e
    by_cases ha : a = k'
    · subst ha
      rw [putValue, if_pos rfl, findValue, findValue,
        List.find?_cons_of_neg _ (by simp [h]), List.find?_cons_of_neg _ (by simp [h])]
    · rw [putValue, if_neg ha]
      by_cases hak : a = k
      · subst hak
        rw [findValue, findValue, List.find?_cons_of_pos _ (by simp),
          List.find?_cons_of_pos _ (by simp)]
      · rw [findValue, findValue, List.find?_cons_of_neg _ (by simp [hak]),
          List.find?_cons_of_neg _ (by simp [hak])]
        exact ih

/-- C5: after setOverrideKeys configures the override keys and
applyOverrideKeys applies them to a fully built dataset, the value found at
any target locator is the value of the last configured override key for that
locator — regardless of any prior value at that location, replacing when
present and inserting when absent — and locations no key targets are
untouched; the application is total, performing no validation. -/
theorem applyOverrideKeys_lastWins (st : DcmEncapsulatedDocument) (keys : List String)
    (ds : DcmDataset) (k : String) :
    findValue (applyOverrideKeys (st.setOverrideKeys keys) ds) k =
      match lastOverrideFor keys k with
      | some v => some (.vs v)
      | none => findValue ds k := by
  show findValue (keys.foldl
      (fun d s => putValue d (parseOverrideKey s).1 (.vs (parseOverrideKey s).2)) ds) k =
    _
  induction keys generalizing ds with
  | nil => rfl
  | cons s rest ih =>
    rw [List.foldl_cons, ih, lastOverrideFor]
    cases hl : lastOverrideFor rest k with
    | some v => rfl
    | none =>
      by_cases h : (parseOverrideKey s).1 = k
      · subst h
        rw [if_pos rfl, findValue_putValue_self]
      · rw [if_neg h, findValue_putValue_ne _ _ _ _ h]

theorem stringRoundTrip (s : String) :
    String.mk ((s.data.map Char.toNat).map Char.ofNat) = s := by
  rw [List.map_map]
  have : (Char.ofNat ∘ Char.toNat) = id := by
    funext c
    exact Char.ofNat_toNat c
  rw [this, List.map_id]

theorem length_le_encode (ds : DcmDataset) : ds.length ≤ (encodeDataset ds).length := by
  induction ds with
  | nil => simp [encodeDataset]
  | cons e rest ih =>
    rw [encodeDataset, List.length_append]
    have h1 : 1 ≤ (encodeElement e).length := by
      obtain ⟨t, v⟩ := e
      simp [encodeElement, encodeString]
    simp only [List.length_cons]
    omega

theorem take_map_left (l : List Char) (tail : List Nat) :
    (l.map Char.toNat ++ tail).take l.length = l.map Char.toNat := by
  have h := List.take_left (l.map Char.toNat) tail
  rw [List.length_map] at h
  exact h

theorem drop_map_left (l : List Char) (tail : List Nat) :
    (l.map Char.toNat ++ tail).drop l.length = tail := by
  have h := List.drop_left (l.map Char.toNat) tail
  rw [List.length_map] at h
  exact h

theorem decodeAux_encode (ds : DcmDataset) :
    ∀ fuel : Nat, ds.length ≤ fuel → decodeAux fuel (encodeDataset ds) = some ds := by
  induction ds with
  | nil =>
    intro fuel _
    cases fuel <;> rfl
  | cons e rest ih =>
    intro fuel hlen
    obtain ⟨t, v⟩ := e
    cases fuel with
    | zero => simp at hlen
    | succ f =>
      have hrest : rest.length ≤ f := by
        simp only [List.length_cons] at hlen
        omega
      have harr : encodeDataset ((t, v) :: rest) =
          t.data.length :: (t.data.map Char.toNat ++ (encodeValue v ++ encodeDataset rest)) := by
        rw [encodeDataset]
        simp [encodeElement, encodeString, List.append_assoc]
      rw [harr, decodeAux]
      rw [if_pos (by rw [List.length_append, List.length_map]; omega)]
      rw [take_map_left, drop_map_left]
      cases v with
      | vs s =>
        have harr2 : encodeValue (.vs s) ++ encodeDataset rest =
            0 :: s.data.length :: (s.data.map Char.toNat ++ encodeDataset rest) := by
          simp [encodeValue, encodeString]
        rw [harr2]
        simp only []
        rw [if_pos (by rw [List.length_append, List.length_map]; omega)]
        rw [take_map_left, drop_map_left, ih f hrest]
        rw [stringRoundTrip, stringRoundTrip]
      | vb b =>
        have harr2 : encodeValue (.vb b) ++ encodeDataset rest =
            1 :: b.length :: (b ++ encodeDataset rest) := by
          simp [encodeValue]
        rw [harr2]
        simp only []
        rw [if_pos (by rw [List.length_append]; omega)]
        rw [List.take_left, List.drop_left, ih f hrest]
        rw [stringRoundTrip]

/-- C9: persisting a dataset through saveFile and reloading the written bytes
through the container codec yields the dataset unchanged — in particular
every identifier and metadata field value of the reloaded dataset is
identical to the original's; the encoding is lossless. -/
theorem saveFile_roundTrip (st : DcmEncapsulatedDocument) (ds : DcmDataset) :
    decodeDataset (saveFile st ds).2 = some ds ∧
    ∃ ds', decodeDataset (saveFile st ds).2 = some ds' ∧
      ∀ k, findValue ds' k = findValue ds k := by
  have h : decodeDataset (encodeDataset ds) = some ds :=
    decodeAux_encode ds (encodeDataset ds).length (length_le_encode ds)
  exact ⟨h, ds, h, fun k => rfl⟩
